import Mathlib

/-!
Verification of the measurement session engine of the globalping CLI
(`cmd/ping.go`): the `MeasurementsBuffer` (the spec's PollingWindow), the
continuous-mode sweep loop `ping`, the `pingInfinite` wrapper, and the
`createMeasurement` path with its session record.

Modelling conventions (shallow embedding of the Go source):
- Go pointers `*view.HistoryItem` are modelled as `Option HistoryItem`
  (`none` is the nil pointer).  Pointer identity is modelled by the `addr`
  field: distinct allocations receive distinct `addr` values, so structural
  equality of the modelled values coincides with pointer equality.
- In-place mutation through a shared pointer (`el.Status = m.Status`) is
  modelled by updating every copy of the item (selected by `addr`) in both
  the polling buffer and the session history.
- External collaborators (remote client, renderer) are oracles indexed by a
  call counter, so an arbitrary sequence of replies can be expressed.
- Dereferencing a nil pointer (a Go panic) is modelled by an explicit
  `panicked` outcome.
- Wall-clock bookkeeping (`elapsedTime`, `StartedAt`, the inter-round
  sleep), the dead `statuses` string in the loop body, and the
  `SilenceUsage`/`showHelp` help-display flags are elided: no claim below
  depends on them.
-/

/-- Measurement status as used by `cmd/ping.go`: the code only distinguishes
`StatusInProgress` from the rest, and checks per-probe results against
`StatusFinished`. -/
inductive MeasurementStatus where
  | inProgress
  | finished
  | failed
deriving DecidableEq, Repr

/-- One `view.HistoryItem`: a measurement record shared (by pointer) between
the session history and the polling buffer.  `addr` models the pointer
identity of the Go allocation; timestamps are elided. -/
structure HistoryItem where
  addr : Nat
  id : String
  status : MeasurementStatus
  isPartiallyFinished : Bool
deriving DecidableEq, Repr

/-- A poll result (`globalping.Measurement`): the overall status and the
per-probe result statuses (`m.Results[i].Result.Status`, flattened). -/
structure Measurement where
  status : MeasurementStatus
  results : List MeasurementStatus
deriving DecidableEq, Repr

/-- `Root.IsPartiallyFinished`: true iff the measurement is still in
progress overall while at least one probe result is already finished. -/
def IsPartiallyFinished (m : Measurement) : Bool :=
  if m.status ≠ MeasurementStatus.inProgress then false
  else m.results.any (fun st => st = MeasurementStatus.finished)

/-- `MeasurementsBuffer` (the spec's PollingWindow): capacity, the slice of
in-flight measurement handles (nil-able pointers), and the iteration
cursor `pos`. -/
structure MeasurementsBuffer where
  capacity : Nat
  items : List (Option HistoryItem)
  pos : Nat
deriving DecidableEq, Repr

/-- `NewMeasurementsBuffer`. -/
def NewMeasurementsBuffer (capacity : Nat) : MeasurementsBuffer :=
  { capacity := capacity, items := [], pos := 0 }

namespace MeasurementsBuffer

/-- `Len`: current occupancy. -/
def Len (b : MeasurementsBuffer) : Nat := b.items.length

/-- `Next`: returns nil when the cursor is past the end, otherwise the item
at the cursor (which may itself be a stored nil pointer), advancing the
cursor.  Returned alongside the updated buffer. -/
def Next (b : MeasurementsBuffer) : Option HistoryItem × MeasurementsBuffer :=
  if b.pos ≥ b.items.length then (none, b)
  else (b.items.getD b.pos none, { b with pos := b.pos + 1 })

/-- `Restart`: reset the cursor, keeping the contents. -/
def Restart (b : MeasurementsBuffer) : MeasurementsBuffer :=
  { b with pos := 0 }

/-- `Append`: unconditionally appends the handle (the Go code performs no
capacity check). -/
def Append (b : MeasurementsBuffer) (hm : Option HistoryItem) : MeasurementsBuffer :=
  { b with items := b.items ++ [hm] }

/-- `Remove`: drops every stored handle equal (pointer equality) to `el`,
decrementing the cursor once for each dropped occurrence that sat strictly
before it. -/
def Remove (b : MeasurementsBuffer) (el : Option HistoryItem) : MeasurementsBuffer :=
  if b.items.isEmpty then b
  else { b with
         items := b.items.filter (fun item => item ≠ el),
         pos := b.pos - (b.items.take b.pos).count el }

/-- The scan inside `CanAppend`: walks the held items looking for one whose
`IsPartiallyFinished` flag is set; dereferencing a stored nil pointer is a
panic, modelled as `none`. -/
def canAppendScan : List (Option HistoryItem) → Option Bool
  | [] => some false
  | none :: _ => none
  | some it :: rest =>
      if it.isPartiallyFinished then some true else canAppendScan rest

/-- `CanAppend`: false when occupancy has reached capacity; otherwise scans
for a partially-finished held item.  `none` models the Go panic on a stored
nil handle. -/
def CanAppend (b : MeasurementsBuffer) : Option Bool :=
  if b.items.length ≥ b.capacity then some false
  else canAppendScan b.items

end MeasurementsBuffer

/-- The stream of non-nil items a caller obtains by invoking `Next`
repeatedly until it yields nil (which is how the sweep loop in `ping`
consumes the buffer: `for el != nil`). -/
def nextAll (b : MeasurementsBuffer) : List HistoryItem :=
  if _h : b.pos < b.items.length then
    match b.items.getD b.pos none with
    | none => []
    | some it => it :: nextAll { b with pos := b.pos + 1 }
  else []
termination_by b.items.length - b.pos

/-- The external collaborators of the continuous-mode loop, as oracles
indexed by a per-oracle call counter:
`poll n id` is the reply of the `n`-th `GetMeasurement` call (made for
measurement `id`); `render n m` is the error outcome of the `n`-th
`OutputInfinite` call; `create n magic` is the reply of the `n`-th
`CreateMeasurement` call, whose location selector is `magic` (on success it
returns the new measurement id). -/
structure Env where
  poll : Nat → String → Except String Measurement
  render : Nat → Measurement → Option String
  create : Nat → String → Except String String

/-- The state threaded through the continuous-mode engine.

`history` models the session `HistoryBuffer` of the `view` package, whose
source is not part of the repository snapshot.  Modelled from the spec:
`push` records a new item and `last` returns the most recently pushed one,
so a most-recent-first list suffices for the operations `ping.go` uses
(`Push`, `Last`); the circular eviction never affects `Last`.

`sessionRecord` is the persisted session record (one measurement id per
line).  `polled` and `rendered` are traces of the external calls made so
far, `pollCalls`/`renderCalls`/`createCalls` the oracle counters, and
`nextAddr` the next fresh pointer address. -/
structure EngineState where
  buf : MeasurementsBuffer
  history : List HistoryItem
  runErr : Option String
  recordToSession : Bool
  sessionRecord : List String
  measurementsCreated : Nat
  nextAddr : Nat
  polled : List String
  rendered : List Measurement
  pollCalls : Nat
  renderCalls : Nat
  createCalls : Nat
deriving DecidableEq, Repr

/-- Modelled from the spec: `saveIdToSession` (whose source is not part of
the repository snapshot) performs `SessionStore.appendLastId`, a best-effort
append of the newly created measurement id to the session-scoped record,
one id per line. -/
def saveIdToSession (record : List String) (id : String) : List String :=
  record ++ [id]

/-- Update applied through a shared pointer write `it.Status = st`: every
copy of the allocation `a` changes its status. -/
def updStatus (a : Nat) (st : MeasurementStatus) (it : HistoryItem) : HistoryItem :=
  if it.addr = a then { it with status := st } else it

/-- Update applied through a shared pointer write
`it.IsPartiallyFinished = f`. -/
def updFlag (a : Nat) (f : Bool) (it : HistoryItem) : HistoryItem :=
  if it.addr = a then { it with isPartiallyFinished := f } else it

/-- Apply the pointer write `el.Status = st` to every aliased copy of the
item (the polling buffer and the session history share the allocation). -/
def setItemStatus (a : Nat) (st : MeasurementStatus) (s : EngineState) : EngineState :=
  { s with
    buf := { s.buf with items := s.buf.items.map (Option.map (updStatus a st)) },
    history := s.history.map (updStatus a st) }

/-- Apply the pointer write `el.IsPartiallyFinished = f` to every aliased
copy of the item. -/
def setItemFlag (a : Nat) (f : Bool) (s : EngineState) : EngineState :=
  { s with
    buf := { s.buf with items := s.buf.items.map (Option.map (updFlag a f)) },
    history := s.history.map (updFlag a f) }

/-- Record one `GetMeasurement` call in the trace. -/
def recordPoll (id : String) (s : EngineState) : EngineState :=
  { s with polled := s.polled ++ [id], pollCalls := s.pollCalls + 1 }

/-- Record one `OutputInfinite` call in the trace. -/
def recordRender (m : Measurement) (s : EngineState) : EngineState :=
  { s with rendered := s.rendered ++ [m], renderCalls := s.renderCalls + 1 }

/-- The engine state right after a successful poll of `el` answered `m`:
the poll is traced and the polled status is written through the shared
pointer (`el.Status = m.Status`). -/
def pollUpdateState (el : HistoryItem) (m : Measurement) (s1 : EngineState) : EngineState :=
  setItemStatus el.addr m.status (recordPoll el.id s1)

/-- The engine state right after a successful incremental render of `m`
for the item `el`: the render is traced, then the item is removed from the
window if its overall status is terminal, and otherwise its
partially-finished flag is refreshed through the shared pointer. -/
def renderUpdateState (el : HistoryItem) (m : Measurement) (s2 : EngineState) : EngineState :=
  if m.status ≠ MeasurementStatus.inProgress then
    { recordRender m s2 with
      buf := (recordRender m s2).buf.Remove (some { el with status := m.status }) }
  else setItemFlag el.addr (IsPartiallyFinished m) (recordRender m s2)

/-- `Root.createMeasurement`: calls the remote client; on failure returns
the nil handle together with the error.  On success it allocates a fresh
`HistoryItem` (status in-progress), pushes it into the session history, and
— only while `recordToSession` is still set — clears that flag and appends
the new id to the persisted session record. -/
def createMeasurement (env : Env) (magic : String) (s : EngineState) :
    Option HistoryItem × Option String × EngineState :=
  match env.create s.createCalls magic with
  | Except.error e => (none, some e, { s with createCalls := s.createCalls + 1 })
  | Except.ok newId =>
      let hm : HistoryItem :=
        { addr := s.nextAddr, id := newId,
          status := MeasurementStatus.inProgress, isPartiallyFinished := false }
      let s1 : EngineState :=
        { s with
          createCalls := s.createCalls + 1,
          nextAddr := s.nextAddr + 1,
          measurementsCreated := s.measurementsCreated + 1,
          history := hm :: s.history }
      let s2 : EngineState :=
        if s1.recordToSession then
          { s1 with
            recordToSession := false,
            sessionRecord := saveIdToSession s1.sessionRecord newId }
        else s1
      (some hm, none, s2)

/-- Outcome of one execution of the body of the sweep loop in `ping`. -/
inductive IterResult where
  | sweepDone (s : EngineState)
  | fatal (e : String) (s : EngineState)
  | panicked (s : EngineState)
  | continued (s : EngineState)
deriving DecidableEq, Repr

/-- One iteration of the inner sweep loop of `Root.ping` (`for el != nil`):
take the next handle; if nil the sweep is over.  Otherwise poll the remote
client (a poll error is returned immediately), write the polled status
through the shared pointer, skip ahead if no results arrived yet, render
(a render error is returned immediately), then either remove the finished
item or refresh its partially-finished flag, and finally — when no run
error is recorded yet and `CanAppend` allows it — create a follow-up
measurement targeted at the last history item and append its handle (nil on
creation failure, with the error recorded in `runErr`). -/
def pingIteration (env : Env) (s : EngineState) : IterResult :=
  match s.buf.Next with
  | (none, b1) => IterResult.sweepDone { s with buf := b1 }
  | (some el, b1) =>
    let s1 : EngineState := { s with buf := b1 }
    match env.poll s1.pollCalls el.id with
    | Except.error e => IterResult.fatal e (recordPoll el.id s1)
    | Except.ok m =>
      let s2 := pollUpdateState el m s1
      if m.results.isEmpty then IterResult.continued s2
      else
        match env.render s2.renderCalls m with
        | some e => IterResult.fatal e (recordRender m s2)
        | none =>
          let s4 := renderUpdateState el m s2
          match s4.runErr with
          | some _ => IterResult.continued s4
          | none =>
            match s4.buf.CanAppend with
            | none => IterResult.panicked s4
            | some false => IterResult.continued s4
            | some true =>
              match s4.history.head? with
              | none => IterResult.panicked s4
              | some lastIt =>
                match createMeasurement env lastIt.id s4 with
                | (hm, cErr, s5) =>
                  let s6 : EngineState :=
                    { s5 with
                      runErr := match cErr with
                                | some e => some e
                                | none => s5.runErr }
                  IterResult.continued { s6 with buf := s6.buf.Append hm }

/-- Outcome of one full sweep of the polling window. -/
inductive SweepResult where
  | done (s : EngineState)
  | fatal (e : String) (s : EngineState)
  | panicked (s : EngineState)
  | outOfFuel (s : EngineState)
deriving DecidableEq, Repr

/-- Run sweep-loop iterations until the sweep is exhausted, a fatal error
is returned, a panic occurs, or the fuel runs out. -/
def pingSweep : Nat → Env → EngineState → SweepResult
  | 0, _, s => SweepResult.outOfFuel s
  | fuel + 1, env, s =>
      match pingIteration env s with
      | IterResult.sweepDone s' => SweepResult.done s'
      | IterResult.fatal e s' => SweepResult.fatal e s'
      | IterResult.panicked s' => SweepResult.panicked s'
      | IterResult.continued s' => pingSweep fuel env s'

/-- The engine state carried out of a sweep, whatever its outcome. -/
def SweepResult.state : SweepResult → EngineState
  | SweepResult.done s => s
  | SweepResult.fatal _ s => s
  | SweepResult.panicked s => s
  | SweepResult.outOfFuel s => s

/-- What `Root.ping` decides after a sweep has drained (lines 165-181):
with the window still occupied it sleeps and starts another round; with the
window empty it returns the deferred run error if one was recorded, and
otherwise creates a fresh measurement and keeps going. -/
inductive AfterSweep where
  | sleepAndContinue
  | returnErr (e : String)
  | createFresh
deriving DecidableEq, Repr

/-- The decision taken between sweeps in `Root.ping`. -/
def pingAfterSweep (s : EngineState) : AfterSweep :=
  if 0 < s.buf.Len then AfterSweep.sleepAndContinue
  else
    match s.runErr with
    | some e => AfterSweep.returnErr e
    | none => AfterSweep.createFresh

/-- The literal validation error of `Root.pingInfinite` (including the
source's spelling). -/
def limitError : String := "continous mode is currently limited to 5 probes"

/-- The observable outcome of `Root.pingInfinite`: how many times the final
summary was rendered, the returned error (`none` means success), and
whether the validation passed so that the run goroutine was started at all
(no remote call can have happened when it is `false`). -/
structure InfiniteResult where
  summaryRenders : Nat
  returnedError : Option String
  enteredRun : Bool
deriving DecidableEq, Repr

/-- `Root.pingInfinite`: rejects probe limits above 5 before starting
anything; otherwise starts `ping` in a goroutine and blocks on the signal
channel.  `pingOutcome` is the value of the shared `err` variable at the
moment the signal is consumed: `some e` when `ping` itself returned the
error `e` (it then raises the signal), `none` when an external cancellation
arrived while no error had occurred.  The summary is rendered exactly when
that error is absent, and the error (or nil) is returned. -/
def pingInfinite (limit : Int) (pingOutcome : Option String) : InfiniteResult :=
  if limit > 5 then
    { summaryRenders := 0, returnedError := some limitError, enteredRun := false }
  else
    match pingOutcome with
    | some e => { summaryRenders := 0, returnedError := some e, enteredRun := true }
    | none => { summaryRenders := 1, returnedError := none, enteredRun := true }

/-- The mutable command context consumed by `Root.RunPing` (the fields the
ping command reads). -/
structure PingContext where
  target : String
  limit : Int
  packets : Int
  infinite : Bool
  ciMode : Bool
  recordToSession : Bool
deriving DecidableEq, Repr

/-- `globalping.MeasurementOptions` (the ping-specific part). -/
structure MeasurementOptions where
  packets : Int
deriving DecidableEq, Repr

/-- `globalping.MeasurementCreate` as assembled by `RunPing` (locations are
resolved later and elided here). -/
structure MeasurementCreate where
  type : String
  target : String
  limit : Int
  inProgressUpdates : Bool
  options : MeasurementOptions
deriving DecidableEq, Repr

/-- The context updates and request assembly performed by `Root.RunPing`
before dispatching: it marks the session for recording, overwrites the
packets option with 16 when `--infinite` is set, and builds the
`MeasurementCreate` request from the (possibly updated) context. -/
def RunPingBuild (ctx : PingContext) : PingContext × MeasurementCreate :=
  let ctx1 := { ctx with recordToSession := true }
  let ctx2 := if ctx1.infinite then { ctx1 with packets := 16 } else ctx1
  (ctx2,
    { type := "ping",
      target := ctx2.target,
      limit := ctx2.limit,
      inProgressUpdates := !ctx2.ciMode,
      options := { packets := ctx2.packets } })

/-- One abstract operation on the polling window, for stating invariants
over arbitrary operation sequences. -/
inductive BufOp where
  | restart
  | next
  | append (hm : Option HistoryItem)
  | remove (el : Option HistoryItem)
deriving DecidableEq, Repr

/-- Apply one operation to the window. -/
def applyOp (b : MeasurementsBuffer) : BufOp → MeasurementsBuffer
  | BufOp.restart => b.Restart
  | BufOp.next => (b.Next).2
  | BufOp.append hm => b.Append hm
  | BufOp.remove el => b.Remove el

/-- Apply a sequence of operations to the window, first one first. -/
def applyOps (b : MeasurementsBuffer) (ops : List BufOp) : MeasurementsBuffer :=
  ops.foldl applyOp b

/-- A sequence of operations is guarded when every `append` in it is issued
in a state with spare capacity (which is what the engine guarantees by
consulting `CanAppend`, or by appending into an emptied window). -/
def guardedOps : MeasurementsBuffer → List BufOp → Bool
  | _, [] => true
  | b, op :: ops =>
      (match op with
       | BufOp.append _ => decide (b.items.length < b.capacity)
       | _ => true)
      && guardedOps (applyOp b op) ops

/-- The engine state carried inside an iteration outcome. -/
def IterResult.state : IterResult → EngineState
  | IterResult.sweepDone s => s
  | IterResult.fatal _ s => s
  | IterResult.panicked s => s
  | IterResult.continued s => s

/-- Whether a sweep ended with an immediately returned fatal error. -/
def SweepResult.isFatal : SweepResult → Bool
  | SweepResult.fatal _ _ => true
  | _ => false

/-- Whether an iteration continued the sweep. -/
def IterResult.isContinued : IterResult → Bool
  | IterResult.continued _ => true
  | _ => false

/-- A concrete in-progress measurement handle used by witnesses. -/
def itemA : HistoryItem :=
  { addr := 0, id := "mA", status := MeasurementStatus.inProgress,
    isPartiallyFinished := false }

/-- A second concrete in-progress measurement handle used by witnesses. -/
def itemB : HistoryItem :=
  { addr := 1, id := "mB", status := MeasurementStatus.inProgress,
    isPartiallyFinished := false }

/-- A baseline engine state with an empty window and no traces. -/
def baseState : EngineState :=
  { buf := NewMeasurementsBuffer 2,
    history := [], runErr := none, recordToSession := false,
    sessionRecord := [], measurementsCreated := 0, nextAddr := 10,
    polled := [], rendered := [], pollCalls := 0, renderCalls := 0,
    createCalls := 0 }

/-- An environment whose remote poll always fails. -/
def envPollError : Env :=
  { poll := fun _ _ => Except.error "boom",
    render := fun _ _ => none,
    create := fun _ _ => Except.ok "mNew" }

/-- An environment whose poll reports a finished measurement that has no
results yet. -/
def envEmptyResults : Env :=
  { poll := fun _ _ =>
      Except.ok { status := MeasurementStatus.finished, results := [] },
    render := fun _ _ => none,
    create := fun _ _ => Except.ok "mNew" }

/-- An environment in which measurement creation always succeeds, returning
`m1` for the first request and `m2` afterwards. -/
def envTwoCreates : Env :=
  { poll := fun _ _ => Except.error "unused",
    render := fun _ _ => none,
    create := fun n _ => Except.ok (if n = 0 then "m1" else "m2") }

/-- An environment whose polls report an in-progress measurement with one
probe already finished, rendering succeeds, and creation fails. -/
def envCreateFails : Env :=
  { poll := fun _ _ =>
      Except.ok { status := MeasurementStatus.inProgress,
                  results := [MeasurementStatus.finished,
                              MeasurementStatus.inProgress] },
    render := fun _ _ => none,
    create := fun _ _ => Except.error "cerr" }

/-- A mid-run engine state whose window holds the two in-flight handles
`itemA` and `itemB`, at the start of a sweep. -/
def stateTwoItems : EngineState :=
  { baseState with
    buf := { capacity := 2, items := [some itemA, some itemB], pos := 0 },
    history := [itemB, itemA], measurementsCreated := 2 }

/-- A mid-run engine state whose window holds only `itemA`, at the start of
a sweep. -/
def stateOneItem : EngineState :=
  { baseState with
    buf := { capacity := 2, items := [some itemA], pos := 0 },
    history := [itemA], measurementsCreated := 1 }

/-- A fresh invocation state: session recording armed, nothing created. -/
def stateFresh : EngineState :=
  { baseState with recordToSession := true, nextAddr := 0 }

/-- A mid-run engine state in which a failed creation has already placed a
nil handle in the window (after `itemA`) and recorded the run error. -/
def stateNilInWindow : EngineState :=
  { baseState with
    buf := { capacity := 2, items := [some itemA, none], pos := 0 },
    history := [itemA], measurementsCreated := 1, runErr := some "cerr" }

/-- The ids of the items sitting strictly before the first nil handle of
the window (the whole window if no nil is stored). -/
def preNilIds (l : List (Option HistoryItem)) : List String :=
  ((l.takeWhile Option.isSome).reduceOption).map HistoryItem.id

/-- The invariant of a sweep over a window already poisoned by a nil
handle: the nil is present, the cursor has not passed any nil, the cursor
is in bounds, and the deferred run error (recorded when the nil was
appended) is set. -/
def NilBlocked (s : EngineState) : Prop :=
  none ∈ s.buf.items ∧ none ∉ s.buf.items.take s.buf.pos ∧
  s.buf.pos ≤ s.buf.items.length ∧ s.runErr ≠ none

/-! ## General lemmas about the window operations -/

theorem filter_ne_length (l : List (Option HistoryItem)) (el : Option HistoryItem) :
    (l.filter (fun x => x ≠ el)).length + l.count el = l.length := by
  induction l with
  | nil => simp
  | cons a t ih =>
    by_cases h : a = el <;>
      simp [List.filter_cons, List.count_cons, h, decide_not] at ih ⊢ <;> omega

theorem count_take_drop (l : List (Option HistoryItem)) (n : Nat) (el : Option HistoryItem) :
    (l.take n).count el + (l.drop n).count el = l.count el := by
  rw [← List.count_append, List.take_append_drop]

theorem Remove_pos_le (b : MeasurementsBuffer) (el : Option HistoryItem)
    (h : b.pos ≤ b.items.length) :
    (b.Remove el).pos ≤ (b.Remove el).items.length := by
  unfold MeasurementsBuffer.Remove
  by_cases he : b.items.isEmpty
  · simp [he, h]
  · simp only [he, if_false]
    have h1 := filter_ne_length b.items el
    have h2 := count_take_drop b.items b.pos el
    have h3 : (b.items.drop b.pos).count el ≤ b.items.length - b.pos := by
      have h4 := List.count_le_length el (b.items.drop b.pos)
      have h5 : (b.items.drop b.pos).length = b.items.length - b.pos :=
        List.length_drop _ _
      omega
    show b.pos - List.count el (List.take b.pos b.items) ≤
      (List.filter (fun item => item ≠ el) b.items).length
    omega

theorem applyOp_pos_le (b : MeasurementsBuffer) (op : BufOp)
    (h : b.pos ≤ b.items.length) :
    (applyOp b op).pos ≤ (applyOp b op).items.length := by
  cases op with
  | restart => simp [applyOp, MeasurementsBuffer.Restart]
  | next =>
    unfold applyOp MeasurementsBuffer.Next
    by_cases hp : b.pos ≥ b.items.length
    · simp [hp, h]
    · simp [hp]; omega
  | append hm => simp [applyOp, MeasurementsBuffer.Append]; omega
  | remove el => exact Remove_pos_le b el h

theorem applyOp_capacity (b : MeasurementsBuffer) (op : BufOp) :
    (applyOp b op).capacity = b.capacity := by
  cases op with
  | restart => simp [applyOp, MeasurementsBuffer.Restart]
  | next =>
    unfold applyOp MeasurementsBuffer.Next
    by_cases hp : b.pos ≥ b.items.length <;> simp [hp]
  | append hm => simp [applyOp, MeasurementsBuffer.Append]
  | remove el =>
    unfold applyOp MeasurementsBuffer.Remove
    by_cases he : b.items.isEmpty <;> simp [he]

theorem applyOps_pos_le (ops : List BufOp) (b : MeasurementsBuffer)
    (h : b.pos ≤ b.items.length) :
    (applyOps b ops).pos ≤ (applyOps b ops).items.length := by
  induction ops generalizing b with
  | nil => exact h
  | cons op ops ih => exact ih (applyOp b op) (applyOp_pos_le b op h)

theorem applyOp_length_le (b : MeasurementsBuffer) (op : BufOp)
    (hguard : ∀ hm, op = BufOp.append hm → b.items.length < b.capacity)
    (h : b.items.length ≤ b.capacity) :
    (applyOp b op).items.length ≤ b.capacity := by
  cases op with
  | restart => simpa [applyOp, MeasurementsBuffer.Restart] using h
  | next =>
    unfold applyOp MeasurementsBuffer.Next
    by_cases hp : b.pos ≥ b.items.length <;> simp [hp, h]
  | append hm =>
    have := hguard hm rfl
    simp [applyOp, MeasurementsBuffer.Append]
    omega
  | remove el =>
    unfold applyOp MeasurementsBuffer.Remove
    by_cases he : b.items.isEmpty
    · simp [he, h]
    · simp only [he, if_false]
      have := List.length_filter_le (fun x => x ≠ el) b.items
      show (List.filter (fun item => item ≠ el) b.items).length ≤ b.capacity
      omega

theorem applyOps_length_le (ops : List BufOp) (b : MeasurementsBuffer)
    (hg : guardedOps b ops = true) (h : b.items.length ≤ b.capacity) :
    (applyOps b ops).items.length ≤ b.capacity := by
  induction ops generalizing b with
  | nil => exact h
  | cons op ops ih =>
    unfold guardedOps at hg
    rw [Bool.and_eq_true] at hg
    have hcap : (applyOp b op).capacity = b.capacity := applyOp_capacity b op
    have hlen : (applyOp b op).items.length ≤ b.capacity := by
      apply applyOp_length_le b op _ h
      intro hm hop
      subst hop
      simpa using hg.1
    have := ih (applyOp b op) hg.2 (by rw [hcap]; exact hlen)
    rwa [hcap] at this

/-! ## Claim theorems -/

/-- C6, counterexample: `Append` performs no capacity check, so two appends
into a fresh window of capacity 1 leave it holding 2 items — the claimed
invariant `items.length ≤ capacity` does not survive an unguarded append,
and `append` does not "add an item only when items.length < capacity". -/
theorem C6_append_unchecked_cex :
    (((NewMeasurementsBuffer 1).Append (some itemA)).Append (some itemB)).capacity = 1 ∧
    (((NewMeasurementsBuffer 1).Append (some itemA)).Append (some itemB)).items.length = 2 := by
  decide

/-- C6 (amended): starting from a fresh window, after every sequence of
operations the cursor lies in `[0, items.length]`; the occupancy bound
`items.length ≤ capacity` holds for every sequence in which each `append`
is issued with occupancy strictly below capacity (`Append` itself performs
no capacity check, so an unguarded append can exceed the bound). -/
theorem C6_window_invariant (c : Nat) (ops : List BufOp) :
    (applyOps (NewMeasurementsBuffer c) ops).pos ≤
      (applyOps (NewMeasurementsBuffer c) ops).items.length ∧
    (guardedOps (NewMeasurementsBuffer c) ops = true →
      (applyOps (NewMeasurementsBuffer c) ops).items.length ≤ c) := by
  constructor
  · exact applyOps_pos_le ops (NewMeasurementsBuffer c) (by simp [NewMeasurementsBuffer])
  · intro hg
    exact applyOps_length_le ops (NewMeasurementsBuffer c) hg
      (by simp [NewMeasurementsBuffer])

/-- C6 witness: a concrete guarded operation sequence on a fresh window of
capacity 1 respects both the cursor and the occupancy bound. -/
theorem C6_window_invariant_witness :
    guardedOps (NewMeasurementsBuffer 1)
      [BufOp.append (some itemA), BufOp.next, BufOp.remove (some itemA),
       BufOp.append (some itemB), BufOp.restart] = true ∧
    (applyOps (NewMeasurementsBuffer 1)
      [BufOp.append (some itemA), BufOp.next, BufOp.remove (some itemA),
       BufOp.append (some itemB), BufOp.restart]).items.length ≤ 1 :=
  ⟨by decide,
   (C6_window_invariant 1
      [BufOp.append (some itemA), BufOp.next, BufOp.remove (some itemA),
       BufOp.append (some itemB), BufOp.restart]).2 (by decide)⟩

/-- C7: a continuous-mode run with probe limit above 5 is rejected with the
fixed "limited to 5 probes" validation error before the run goroutine (and
hence any remote call) is started; a limit of at most 5 passes this
validation. -/
theorem C7_limit_validation (limit : Int) (outcome : Option String) :
    (5 < limit →
      pingInfinite limit outcome =
        { summaryRenders := 0, returnedError := some limitError,
          enteredRun := false }) ∧
    (limit ≤ 5 → (pingInfinite limit outcome).enteredRun = true) := by
  constructor
  · intro h
    simp [pingInfinite, h]
  · intro h
    have hn : ¬ (5 < limit) := not_lt.mpr h
    cases outcome <;> simp [pingInfinite, hn]

/-- C7 witness: limit 6 is rejected outright, limit 3 passes validation. -/
theorem C7_limit_validation_witness :
    ((5 : Int) < 6 ∧
      pingInfinite 6 none =
        { summaryRenders := 0, returnedError := some limitError,
          enteredRun := false }) ∧
    ((3 : Int) ≤ 5 ∧ (pingInfinite 3 (some "x")).enteredRun = true) :=
  ⟨⟨by decide, (C7_limit_validation 6 none).1 (by decide)⟩,
   ⟨by decide, (C7_limit_validation 3 (some "x")).2 (by decide)⟩⟩

/-- C8: when continuous mode terminates (validation having passed), the
final summary is rendered exactly once iff no run-level error had occurred
at the moment the termination signal is consumed, and the recorded error
(or nil) is what the run returns; with an error present no summary is
rendered. -/
theorem C8_summary_on_cancellation (limit : Int) (outcome : Option String)
    (h : limit ≤ 5) :
    ((pingInfinite limit outcome).summaryRenders = 1 ↔ outcome = none) ∧
    (pingInfinite limit outcome).returnedError = outcome ∧
    (outcome ≠ none → (pingInfinite limit outcome).summaryRenders = 0) := by
  have hn : ¬ (5 < limit) := not_lt.mpr h
  cases outcome <;> simp [pingInfinite, hn]

/-- C8 witness: at limit 1, a clean cancellation renders one summary and
returns success, while a recorded error suppresses the summary and is
returned. -/
theorem C8_summary_on_cancellation_witness :
    (1 : Int) ≤ 5 ∧
    (((pingInfinite 1 (some "boom")).summaryRenders = 1 ↔
        (some "boom" : Option String) = none) ∧
      (pingInfinite 1 (some "boom")).returnedError = some "boom" ∧
      ((some "boom" : Option String) ≠ none →
        (pingInfinite 1 (some "boom")).summaryRenders = 0)) :=
  ⟨by decide, C8_summary_on_cancellation 1 (some "boom") (by decide)⟩

/-- C10: with `--infinite` set, `RunPing` overwrites the packets option
with 16 before building the creation request, discarding the user-supplied
value; without it, the user-supplied packets value is passed through. -/
theorem C10_infinite_packets (ctx : PingContext) :
    (ctx.infinite = true → (RunPingBuild ctx).2.options.packets = 16) ∧
    (ctx.infinite = false → (RunPingBuild ctx).2.options.packets = ctx.packets) := by
  constructor <;> intro h <;> simp [RunPingBuild, h]

/-- C10 witness: a user-supplied `--packets 9` is overwritten to 16 under
`--infinite` and kept at 9 without it. -/
theorem C10_infinite_packets_witness :
    ((RunPingBuild
        { target := "t", limit := 1, packets := 9, infinite := true,
          ciMode := false, recordToSession := false }).2.options.packets = 16) ∧
    ((RunPingBuild
        { target := "t", limit := 1, packets := 9, infinite := false,
          ciMode := false, recordToSession := false }).2.options.packets = 9) :=
  ⟨(C10_infinite_packets
      { target := "t", limit := 1, packets := 9, infinite := true,
        ciMode := false, recordToSession := false }).1 rfl,
   (C10_infinite_packets
      { target := "t", limit := 1, packets := 9, infinite := false,
        ciMode := false, recordToSession := false }).2 rfl⟩

/-- C1, counterexample: in a sweep over two in-flight items, an error from
the very first remote poll is returned immediately: the sweep is
interrupted with the window still holding both items, nothing was rendered,
and the second already-started item (`itemB`) is never even polled —
contradicting the claim that the error is only surfaced after the window
fully drains with every started item rendered. -/
theorem C1_poll_error_interrupts_cex :
    (pingSweep 3 envPollError stateTwoItems).isFatal = true ∧
    (pingSweep 3 envPollError stateTwoItems).state.polled = ["mA"] ∧
    (pingSweep 3 envPollError stateTwoItems).state.rendered = [] ∧
    (pingSweep 3 envPollError stateTwoItems).state.buf.Len = 2 := by
  decide

/-- C2, counterexample: two successful measurement creations in one
invocation (session recording armed) leave exactly one id in the persisted
session record, not two — only the first creation appends a line. -/
theorem C2_single_session_line_cex :
    ((createMeasurement envTwoCreates "m1"
        (createMeasurement envTwoCreates "world" stateFresh).2.2).2.2.measurementsCreated = 2) ∧
    ((createMeasurement envTwoCreates "m1"
        (createMeasurement envTwoCreates "world" stateFresh).2.2).2.2.sessionRecord = ["m1"]) := by
  decide

/-- C3, counterexample: a poll that returns an empty result list still
mutates state — the polled item's status field is overwritten with the
polled status (here `finished`, while the item had been `inProgress`)
before the engine moves on, contradicting "without mutating any state:
the polled item's fields (including its status) ... unchanged". -/
theorem C3_empty_poll_mutates_status_cex :
    (pingIteration envEmptyResults stateOneItem).isContinued = true ∧
    (pingIteration envEmptyResults stateOneItem).state.buf.items =
      [some { itemA with status := MeasurementStatus.finished }] ∧
    itemA.status = MeasurementStatus.inProgress ∧
    (pingIteration envEmptyResults stateOneItem).state.rendered = [] := by
  decide

theorem canAppendScan_no_nil (l : List (Option HistoryItem))
    (h : ∀ x ∈ l, x ≠ none) :
    (MeasurementsBuffer.canAppendScan l = some true ↔
      ∃ it : HistoryItem, some it ∈ l ∧ it.isPartiallyFinished = true) := by
  induction l with
  | nil => simp [MeasurementsBuffer.canAppendScan]
  | cons a t ih =>
    cases a with
    | none => exact absurd rfl (h none (List.mem_cons_self _ _))
    | some it =>
      have ht : ∀ x ∈ t, x ≠ none := fun x hx => h x (List.mem_cons_of_mem _ hx)
      by_cases hf : it.isPartiallyFinished = true
      · simp only [MeasurementsBuffer.canAppendScan, if_pos hf]
        exact ⟨fun _ => ⟨it, List.mem_cons_self _ _, hf⟩, fun _ => by trivial⟩
      · simp only [MeasurementsBuffer.canAppendScan, if_neg hf]
        rw [ih ht]
        constructor
        · rintro ⟨it', hmem, hflag⟩
          exact ⟨it', List.mem_cons_of_mem _ hmem, hflag⟩
        · rintro ⟨it', hmem, hflag⟩
          rcases List.mem_cons.mp hmem with heq | hmem'
          · rw [Option.some.injEq] at heq
            subst heq
            exact absurd hflag hf
          · exact ⟨it', hmem', hflag⟩

/-- C4: `CanAppend` returns false whenever occupancy has reached capacity,
regardless of the partial-finish flags; and on a window of real (non-nil)
handles it returns true iff occupancy is strictly below capacity and at
least one held item has its partially-finished flag set. -/
theorem C4_canAppend_spec (b : MeasurementsBuffer) :
    (b.items.length = b.capacity → b.CanAppend = some false) ∧
    ((∀ x ∈ b.items, x ≠ none) →
      (b.CanAppend = some true ↔
        b.items.length < b.capacity ∧
        ∃ it : HistoryItem, some it ∈ b.items ∧ it.isPartiallyFinished = true)) := by
  constructor
  · intro h
    simp [MeasurementsBuffer.CanAppend, h]
  · intro hno
    by_cases hlen : b.items.length ≥ b.capacity
    · simp only [MeasurementsBuffer.CanAppend, hlen, if_true]
      constructor
      · intro hfalse
        exact absurd hfalse (by simp)
      · rintro ⟨hlt, -⟩
        omega
    · have hlt : b.items.length < b.capacity := by omega
      simp only [MeasurementsBuffer.CanAppend, hlen, if_false]
      rw [canAppendScan_no_nil b.items hno]
      constructor
      · intro hex
        exact ⟨hlt, hex⟩
      · rintro ⟨-, hex⟩
        exact hex

/-- C4 witness: a window of capacity 2 holding one partially-finished item
admits an append, and the same window at full occupancy does not. -/
theorem C4_canAppend_spec_witness :
    ((MeasurementsBuffer.mk 2
        [some { itemA with isPartiallyFinished := true }] 0).CanAppend = some true ↔
      ((MeasurementsBuffer.mk 2
          [some { itemA with isPartiallyFinished := true }] 0).items.length <
        (MeasurementsBuffer.mk 2
          [some { itemA with isPartiallyFinished := true }] 0).capacity ∧
        ∃ it : HistoryItem,
          some it ∈ (MeasurementsBuffer.mk 2
            [some { itemA with isPartiallyFinished := true }] 0).items ∧
          it.isPartiallyFinished = true)) ∧
    (MeasurementsBuffer.mk 1
        [some { itemA with isPartiallyFinished := true }] 0).CanAppend = some false :=
  ⟨(C4_canAppend_spec (MeasurementsBuffer.mk 2
      [some { itemA with isPartiallyFinished := true }] 0)).2 (by decide),
   (C4_canAppend_spec (MeasurementsBuffer.mk 1
      [some { itemA with isPartiallyFinished := true }] 0)).1 (by decide)⟩

/-- C2 (amended): within one command invocation, only the first successful
measurement creation appends a line — exactly one line holding that first
measurement's id — to the persisted session record, clearing the recording
flag; every later creation of the invocation leaves the record unchanged,
and failed creations never touch it. -/
theorem C2_session_record_policy (env : Env) (magic : String) (s : EngineState) :
    (s.recordToSession = true →
      ∀ newId, env.create s.createCalls magic = Except.ok newId →
        (createMeasurement env magic s).2.2.sessionRecord =
          saveIdToSession s.sessionRecord newId ∧
        (createMeasurement env magic s).2.2.recordToSession = false) ∧
    (s.recordToSession = false →
      (createMeasurement env magic s).2.2.sessionRecord = s.sessionRecord ∧
      (createMeasurement env magic s).2.2.recordToSession = false) ∧
    (∀ e, env.create s.createCalls magic = Except.error e →
      (createMeasurement env magic s).2.2.sessionRecord = s.sessionRecord ∧
      (createMeasurement env magic s).2.2.recordToSession = s.recordToSession) := by
  refine ⟨?_, ?_, ?_⟩
  · intro hrec newId hok
    simp [createMeasurement, hok, hrec]
  · intro hrec
    cases hc : env.create s.createCalls magic with
    | error e => simp [createMeasurement, hc, hrec]
    | ok newId => simp [createMeasurement, hc, hrec]
  · intro e herr
    simp [createMeasurement, herr]

/-- C2 witness: with recording armed, a successful creation of `m1` appends
exactly the line `m1` and clears the flag. -/
theorem C2_session_record_policy_witness :
    stateFresh.recordToSession = true ∧
    envTwoCreates.create stateFresh.createCalls "world" = Except.ok "m1" ∧
    ((createMeasurement envTwoCreates "world" stateFresh).2.2.sessionRecord =
        saveIdToSession stateFresh.sessionRecord "m1" ∧
      (createMeasurement envTwoCreates "world" stateFresh).2.2.recordToSession = false) :=
  ⟨by decide, rfl,
   (C2_session_record_policy envTwoCreates "world" stateFresh).1 (by decide) "m1" rfl⟩

theorem updStatus_id (a : Nat) (st : MeasurementStatus) (it : HistoryItem) :
    (updStatus a st it).id = it.id := by
  unfold updStatus
  split <;> rfl

theorem updFlag_id (a : Nat) (f : Bool) (it : HistoryItem) :
    (updFlag a f it).id = it.id := by
  unfold updFlag
  split <;> rfl

theorem map_id_of_id_eq (f : HistoryItem → HistoryItem)
    (hid : ∀ it, (f it).id = it.id) (l : List HistoryItem) :
    (l.map f).map HistoryItem.id = l.map HistoryItem.id := by
  induction l with
  | nil => rfl
  | cons x t ih =>
    simp only [List.map_cons, ih]
    rw [hid x]

/-- C3 (amended): when a poll returns an empty result list the engine moves
to the next outstanding item with no render, no removal and no
partial-finish update — the window's membership and length, the history
ids, the session record, the run error and the render trace are all
unchanged — but it is not entirely mutation-free: the polled item's status
field (aliased into the history) has already been overwritten with the
polled status, and the poll itself is traced. -/
theorem C3_empty_poll_skip (env : Env) (s : EngineState) (el : HistoryItem)
    (b1 : MeasurementsBuffer) (m : Measurement)
    (hnext : s.buf.Next = (some el, b1))
    (hpoll : env.poll s.pollCalls el.id = Except.ok m)
    (hres : m.results = []) :
    pingIteration env s =
      IterResult.continued (pollUpdateState el m { s with buf := b1 }) ∧
    (pollUpdateState el m { s with buf := b1 }).rendered = s.rendered ∧
    (pollUpdateState el m { s with buf := b1 }).runErr = s.runErr ∧
    (pollUpdateState el m { s with buf := b1 }).buf.items.length =
      s.buf.items.length ∧
    (pollUpdateState el m { s with buf := b1 }).buf.pos = b1.pos ∧
    (pollUpdateState el m { s with buf := b1 }).history.map HistoryItem.id =
      s.history.map HistoryItem.id ∧
    (pollUpdateState el m { s with buf := b1 }).sessionRecord = s.sessionRecord := by
  have hb1 : b1.items = s.buf.items := by
    unfold MeasurementsBuffer.Next at hnext
    by_cases hp : s.buf.pos ≥ s.buf.items.length
    · simp [hp] at hnext
    · simp [hp] at hnext
      rw [← hnext.2]
  refine ⟨?_, ?_, ?_, ?_, ?_, ?_, ?_⟩
  · unfold pingIteration
    rw [hnext]
    dsimp only
    rw [hpoll]
    dsimp only
    rw [hres]
    rfl
  · simp [pollUpdateState, setItemStatus, recordPoll]
  · simp [pollUpdateState, setItemStatus, recordPoll]
  · simp [pollUpdateState, setItemStatus, recordPoll, hb1]
  · simp [pollUpdateState, setItemStatus, recordPoll]
  · simp only [pollUpdateState, setItemStatus, recordPoll]
    exact map_id_of_id_eq _ (updStatus_id el.addr m.status) s.history
  · simp [pollUpdateState, setItemStatus, recordPoll]

/-- C3 witness: polling the single in-flight item with an empty finished
reply makes the engine continue with only the status write and poll trace
applied. -/
theorem C3_empty_poll_skip_witness :
    pingIteration envEmptyResults stateOneItem =
      IterResult.continued
        (pollUpdateState itemA
          { status := MeasurementStatus.finished, results := [] }
          { stateOneItem with
            buf := { capacity := 2, items := [some itemA], pos := 1 } }) ∧
    (pollUpdateState itemA
      { status := MeasurementStatus.finished, results := [] }
      { stateOneItem with
        buf := { capacity := 2, items := [some itemA], pos := 1 } }).rendered =
      stateOneItem.rendered :=
  ⟨(C3_empty_poll_skip envEmptyResults stateOneItem itemA
      { capacity := 2, items := [some itemA], pos := 1 }
      { status := MeasurementStatus.finished, results := [] }
      (by decide) rfl rfl).1,
   (C3_empty_poll_skip envEmptyResults stateOneItem itemA
      { capacity := 2, items := [some itemA], pos := 1 }
      { status := MeasurementStatus.finished, results := [] }
      (by decide) rfl rfl).2.1⟩

theorem nextAll_eq_reduceOption (b : MeasurementsBuffer) (hnonil : none ∉ b.items) :
    nextAll b = (b.items.drop b.pos).reduceOption := by
  induction b using nextAll.induct with
  | case1 b h heq =>
    exfalso
    have hnil : b.items[b.pos] = none := by
      rw [← List.getD_eq_getElem b.items none h, heq]
    exact hnonil (hnil ▸ List.getElem_mem h)
  | case2 b h it heq ih =>
    rw [nextAll]
    simp only [dif_pos h, heq]
    rw [ih hnonil]
    rw [List.drop_eq_getElem_cons h]
    have hsome : b.items[b.pos] = some it := by
      rw [← List.getD_eq_getElem b.items none h, heq]
    rw [hsome, List.reduceOption_cons_of_some]
  | case3 b h =>
    rw [nextAll]
    simp only [dif_neg h]
    rw [List.drop_eq_nil_of_le (by omega)]
    rfl

theorem filter_ne_of_forall (L : List HistoryItem) (el : HistoryItem)
    (h : ∀ x ∈ L, x ≠ el) : L.filter (fun it => it ≠ el) = L :=
  List.filter_eq_self.mpr fun a ha => by
    simp only [ne_eq, decide_eq_true_eq, decide_not, Bool.not_eq_true']
    exact decide_eq_false (h a ha)

/-- C5: on a window of real (non-nil) handles in which the removed item
occurs exactly once (pointer identity: `b.items = l1 ++ some el :: l2` with
`el` in neither side), `Remove` deletes exactly that occurrence; it
decrements the cursor by exactly one when the item sat strictly before the
cursor and leaves the cursor unchanged otherwise; and the stream of items
subsequently returned by `next()` is exactly the not-yet-visited items that
were not removed, in order. -/
theorem C5_remove_cursor (b : MeasurementsBuffer) (el : HistoryItem)
    (l1 l2 : List (Option HistoryItem))
    (hsplit : b.items = l1 ++ some el :: l2)
    (hel1 : some el ∉ l1) (hel2 : some el ∉ l2)
    (hnonil : none ∉ b.items) :
    (b.Remove (some el)).items = l1 ++ l2 ∧
    (l1.length < b.pos → (b.Remove (some el)).pos = b.pos - 1) ∧
    (b.pos ≤ l1.length → (b.Remove (some el)).pos = b.pos) ∧
    nextAll (b.Remove (some el)) = (nextAll b).filter (fun it => it ≠ el) := by
  have hne : b.items.isEmpty = false := by
    rw [List.isEmpty_eq_false, hsplit]
    simp
  have hfil : b.items.filter (fun x => x ≠ some el) = l1 ++ l2 := by
    have e1 : l1.filter (fun x => x ≠ some el) = l1 :=
      List.filter_eq_self.mpr fun a ha => by
        simp only [ne_eq, decide_not, Bool.not_eq_true', decide_eq_false_iff_not]
        exact fun hEq => hel1 (hEq ▸ ha)
    have e2 : l2.filter (fun x => x ≠ some el) = l2 :=
      List.filter_eq_self.mpr fun a ha => by
        simp only [ne_eq, decide_not, Bool.not_eq_true', decide_eq_false_iff_not]
        exact fun hEq => hel2 (hEq ▸ ha)
    rw [hsplit, List.filter_append, List.filter_cons]
    simp only [ne_eq, decide_not] at e1 e2 ⊢
    simp [e1, e2]
  have hitems : (b.Remove (some el)).items = l1 ++ l2 := by
    unfold MeasurementsBuffer.Remove
    rw [hne]
    simpa using hfil
  have hposform : (b.Remove (some el)).pos =
      b.pos - (b.items.take b.pos).count (some el) := by
    unfold MeasurementsBuffer.Remove
    rw [hne]
    simp
  have hnonil12 : none ∉ l1 ++ l2 := by
    intro hmem
    apply hnonil
    rw [hsplit]
    rcases List.mem_append.mp hmem with h1 | h2
    · exact List.mem_append.mpr (Or.inl h1)
    · exact List.mem_append.mpr (Or.inr (List.mem_cons_of_mem _ h2))
  have hcount_le : b.pos ≤ l1.length →
      (b.items.take b.pos).count (some el) = 0 := by
    intro hc
    apply List.count_eq_zero.mpr
    intro hmem
    have : some el ∈ l1.take b.pos := by
      rw [hsplit, List.take_append_eq_append_take] at hmem
      have hz : b.pos - l1.length = 0 := by omega
      rw [hz] at hmem
      simpa using hmem
    exact hel1 (List.mem_of_mem_take this)
  have hcount_gt : l1.length < b.pos →
      (b.items.take b.pos).count (some el) = 1 := by
    intro hc
    rw [hsplit, List.take_append_eq_append_take]
    rw [List.take_of_length_le (by omega)]
    have hk : b.pos - l1.length = (b.pos - l1.length - 1) + 1 := by omega
    rw [hk, List.take_succ_cons]
    rw [List.count_append, List.count_cons_self]
    have c1 : l1.count (some el) = 0 := List.count_eq_zero.mpr hel1
    have c2 : (l2.take (b.pos - l1.length - 1)).count (some el) = 0 := by
      apply List.count_eq_zero.mpr
      intro hmem
      exact hel2 (List.mem_of_mem_take hmem)
    rw [c1, c2]
  refine ⟨hitems, ?_, ?_, ?_⟩
  · intro hc
    rw [hposform, hcount_gt hc]
  · intro hc
    rw [hposform, hcount_le hc]
    omega
  · have hnextL : nextAll (b.Remove (some el)) =
        (((l1 ++ l2).drop (b.Remove (some el)).pos)).reduceOption := by
      rw [nextAll_eq_reduceOption _ (by rw [hitems]; exact hnonil12), hitems]
    have hnextR : nextAll b = ((l1 ++ some el :: l2).drop b.pos).reduceOption := by
      rw [nextAll_eq_reduceOption b hnonil, hsplit]
    have hflt1 : ∀ X : List (Option HistoryItem), (∀ x ∈ X, x ∈ l1) →
        ((X.reduceOption).filter (fun it => it ≠ el) = X.reduceOption) := by
      intro X hX
      apply filter_ne_of_forall
      intro x hx hEq
      exact hel1 (hEq ▸ hX (some x) (List.reduceOption_mem_iff.mp hx))
    have hflt2 : ∀ X : List (Option HistoryItem), (∀ x ∈ X, x ∈ l2) →
        ((X.reduceOption).filter (fun it => it ≠ el) = X.reduceOption) := by
      intro X hX
      apply filter_ne_of_forall
      intro x hx hEq
      exact hel2 (hEq ▸ hX (some x) (List.reduceOption_mem_iff.mp hx))
    by_cases hc : b.pos ≤ l1.length
    · rw [hnextL, hnextR, hposform, hcount_le hc, Nat.sub_zero]
      rw [List.drop_append_eq_append_drop, List.drop_append_eq_append_drop]
      have hz : b.pos - l1.length = 0 := by omega
      rw [hz, List.drop_zero, List.drop_zero]
      rw [List.reduceOption_append, List.reduceOption_append,
        List.reduceOption_cons_of_some, List.filter_append]
      rw [hflt1 (l1.drop b.pos) (fun x hx => List.mem_of_mem_drop hx)]
      have hcond : ¬ ((fun it => decide (it ≠ el)) el = true) := by simp
      have hcons : (el :: l2.reduceOption).filter (fun it => it ≠ el) =
          l2.reduceOption := by
        rw [List.filter_cons, if_neg hcond]
        exact hflt2 l2 (fun x hx => hx)
      rw [hcons]
    · have hc2 : l1.length < b.pos := by omega
      rw [hnextL, hnextR, hposform, hcount_gt hc2]
      rw [List.drop_append_eq_append_drop, List.drop_append_eq_append_drop]
      rw [List.drop_eq_nil_of_le (show l1.length ≤ b.pos - 1 by omega),
        List.drop_eq_nil_of_le (show l1.length ≤ b.pos by omega)]
      have hk : b.pos - l1.length = (b.pos - l1.length - 1) + 1 := by omega
      rw [hk, List.drop_succ_cons]
      have hk2 : b.pos - 1 - l1.length = b.pos - l1.length - 1 := by omega
      rw [hk2]
      simp only [List.nil_append]
      exact (hflt2 (l2.drop (b.pos - l1.length - 1))
        (fun x hx => List.mem_of_mem_drop hx)).symm

/-- C5 witness: removing the already-visited `itemA` (cursor at 1) deletes
it, pulls the cursor back to 0, and the remaining `next()` stream is
exactly `[itemB]`. -/
theorem C5_remove_cursor_witness :
    ((MeasurementsBuffer.mk 3 [some itemA, some itemB] 1).Remove (some itemA)).items =
      [] ++ [some itemB] ∧
    (List.length ([] : List (Option HistoryItem)) <
        (MeasurementsBuffer.mk 3 [some itemA, some itemB] 1).pos →
      ((MeasurementsBuffer.mk 3 [some itemA, some itemB] 1).Remove (some itemA)).pos =
        (MeasurementsBuffer.mk 3 [some itemA, some itemB] 1).pos - 1) ∧
    ((MeasurementsBuffer.mk 3 [some itemA, some itemB] 1).pos ≤
        List.length ([] : List (Option HistoryItem)) →
      ((MeasurementsBuffer.mk 3 [some itemA, some itemB] 1).Remove (some itemA)).pos =
        (MeasurementsBuffer.mk 3 [some itemA, some itemB] 1).pos) ∧
    nextAll ((MeasurementsBuffer.mk 3 [some itemA, some itemB] 1).Remove (some itemA)) =
      (nextAll (MeasurementsBuffer.mk 3 [some itemA, some itemB] 1)).filter
        (fun it => it ≠ itemA) :=
  C5_remove_cursor (MeasurementsBuffer.mk 3 [some itemA, some itemB] 1) itemA
    [] [some itemB] (by decide) (by decide) (by decide) (by decide)

theorem Next_items (b : MeasurementsBuffer) : (b.Next).2.items = b.items := by
  unfold MeasurementsBuffer.Next
  split <;> rfl

theorem Next_some_facts (b : MeasurementsBuffer) (el : HistoryItem)
    (b' : MeasurementsBuffer) (h : b.Next = (some el, b')) :
    b.pos < b.items.length ∧ b.items.getD b.pos none = some el ∧
    b' = { b with pos := b.pos + 1 } := by
  unfold MeasurementsBuffer.Next at h
  by_cases hp : b.pos ≥ b.items.length
  · rw [if_pos hp] at h
    simp at h
  · rw [if_neg hp] at h
    rw [Prod.mk.injEq] at h
    exact ⟨by omega, h.1, h.2.symm⟩

theorem mem_map_none (f : HistoryItem → HistoryItem) (l : List (Option HistoryItem)) :
    none ∈ l.map (Option.map f) ↔ none ∈ l := by
  constructor
  · intro h
    rcases List.mem_map.mp h with ⟨x, hx, hEq⟩
    cases x with
    | none => exact hx
    | some a => simp at hEq
  · intro h
    exact List.mem_map.mpr ⟨none, h, rfl⟩

theorem none_mem_filter_ne (l : List (Option HistoryItem)) (x : HistoryItem)
    (h : none ∈ l) : none ∈ l.filter (fun h0 => h0 ≠ some x) :=
  List.mem_filter.mpr ⟨h, by simp⟩

theorem no_none_take_succ (l : List (Option HistoryItem)) (p : Nat) (el : HistoryItem)
    (hvis : none ∉ l.take p) (hlt : p < l.length) (hget : l.getD p none = some el) :
    none ∉ l.take (p + 1) := by
  rw [List.take_succ]
  intro hmem
  rcases List.mem_append.mp hmem with h1 | h2
  · exact hvis h1
  · have hp : l[p]? = some (some el) := by
      rw [List.getElem?_eq_getElem hlt, ← List.getD_eq_getElem l none hlt, hget]
    rw [hp] at h2
    simp at h2

theorem no_none_take_after_filter (l : List (Option HistoryItem)) (p : Nat)
    (x : HistoryItem) (hp : p ≤ l.length) (hvis : none ∉ l.take p) :
    none ∉ (l.filter (fun h0 => h0 ≠ some x)).take
      (p - (l.take p).count (some x)) := by
  have hlenA : (l.take p).length = p := by
    rw [List.length_take]
    omega
  have hflen : ((l.take p).filter (fun h0 => h0 ≠ some x)).length
      = p - (l.take p).count (some x) := by
    have := filter_ne_length (l.take p) (some x)
    omega
  have hsplitf : l.filter (fun h0 => h0 ≠ some x) =
      (l.take p).filter (fun h0 => h0 ≠ some x) ++
      (l.drop p).filter (fun h0 => h0 ≠ some x) := by
    rw [← List.filter_append, List.take_append_drop]
  intro hmem
  rw [hsplitf, ← hflen, List.take_left] at hmem
  exact hvis (List.mem_filter.mp hmem).1

theorem preNilIds_map (f : HistoryItem → HistoryItem)
    (hid : ∀ it, (f it).id = it.id) (l : List (Option HistoryItem)) :
    preNilIds (l.map (Option.map f)) = preNilIds l := by
  induction l with
  | nil => rfl
  | cons a t ih =>
    cases a with
    | none =>
      unfold preNilIds
      simp [List.takeWhile_cons]
    | some it =>
      unfold preNilIds at ih ⊢
      simp only [List.map_cons, Option.map_some', List.takeWhile_cons,
        Option.isSome_some, if_true, List.reduceOption_cons_of_some,
        List.map_cons, ih, hid it]

theorem preNilIds_filter (l : List (Option HistoryItem)) (x : HistoryItem) :
    ∀ id ∈ preNilIds (l.filter (fun h0 => h0 ≠ some x)), id ∈ preNilIds l := by
  induction l with
  | nil => simp [preNilIds]
  | cons a t ih =>
    cases a with
    | none =>
      intro id hid
      have hkeep : (none : Option HistoryItem) :: t.filter (fun h0 => h0 ≠ some x) =
          (none :: t).filter (fun h0 => h0 ≠ some x) := by
        rw [List.filter_cons]
        simp
      rw [← hkeep] at hid
      unfold preNilIds at hid
      simp [List.takeWhile_cons] at hid
    | some y =>
      by_cases hyx : y = x
      · subst hyx
        intro id hid
        have hdrop : (some y :: t).filter (fun h0 => h0 ≠ some y) =
            t.filter (fun h0 => h0 ≠ some y) := by
          rw [List.filter_cons]
          simp
        rw [hdrop] at hid
        have := ih id hid
        unfold preNilIds
        simp only [List.takeWhile_cons, Option.isSome_some, if_true,
          List.reduceOption_cons_of_some, List.map_cons]
        exact List.mem_cons_of_mem _ this
      · intro id hid
        have hkeep : (some y :: t).filter (fun h0 => h0 ≠ some x) =
            some y :: t.filter (fun h0 => h0 ≠ some x) := by
          rw [List.filter_cons]
          simp [hyx]
        rw [hkeep] at hid
        unfold preNilIds at hid ⊢
        simp only [List.takeWhile_cons, Option.isSome_some, if_true,
          List.reduceOption_cons_of_some, List.map_cons] at hid ⊢
        rcases List.mem_cons.mp hid with h1 | h2
        · rw [h1]
          exact List.mem_cons_self _ _
        · exact List.mem_cons_of_mem _ (ih id h2)

theorem mem_takeWhile_isSome (l : List (Option HistoryItem)) (n : Nat)
    (hn : ∀ x ∈ l.take n, x ≠ none) :
    ∀ x ∈ l.take n, x ∈ l.takeWhile Option.isSome := by
  induction l generalizing n with
  | nil => simp
  | cons a t ih =>
    cases n with
    | zero => simp
    | succ n =>
      rw [List.take_succ_cons] at hn ⊢
      have ha : a ≠ none := hn a (List.mem_cons_self _ _)
      have hsome : a.isSome = true := Option.isSome_iff_ne_none.mpr ha
      rw [List.takeWhile_cons, if_pos hsome]
      intro x hx
      rcases List.mem_cons.mp hx with h1 | h2
      · rw [h1]
        exact List.mem_cons_self _ _
      · exact List.mem_cons_of_mem _
          (ih n (fun y hy => hn y (List.mem_cons_of_mem _ hy)) x h2)

theorem id_mem_preNilIds (l : List (Option HistoryItem)) (p : Nat) (el : HistoryItem)
    (hlt : p < l.length) (hget : l.getD p none = some el) (hvis : none ∉ l.take p) :
    el.id ∈ preNilIds l := by
  have hsucc : none ∉ l.take (p + 1) := no_none_take_succ l p el hvis hlt hget
  have hmem : some el ∈ l.take (p + 1) := by
    rw [List.take_succ]
    apply List.mem_append.mpr
    right
    have hp : l[p]? = some (some el) := by
      rw [List.getElem?_eq_getElem hlt, ← List.getD_eq_getElem l none hlt, hget]
    rw [hp]
    simp
  have htw : some el ∈ l.takeWhile Option.isSome :=
    mem_takeWhile_isSome l (p + 1) (fun x hx hxn => hsucc (hxn ▸ hx)) (some el) hmem
  unfold preNilIds
  exact List.mem_map.mpr ⟨el, List.reduceOption_mem_iff.mpr htw, rfl⟩

theorem renderUpdateState_runErr (el : HistoryItem) (m : Measurement)
    (s2 : EngineState) : (renderUpdateState el m s2).runErr = s2.runErr := by
  unfold renderUpdateState
  split <;> rfl

theorem renderUpdateState_createCalls (el : HistoryItem) (m : Measurement)
    (s2 : EngineState) : (renderUpdateState el m s2).createCalls = s2.createCalls := by
  unfold renderUpdateState
  split <;> rfl

theorem renderUpdateState_polled (el : HistoryItem) (m : Measurement)
    (s2 : EngineState) : (renderUpdateState el m s2).polled = s2.polled := by
  unfold renderUpdateState
  split <;> rfl

theorem renderUpdateState_rendered (el : HistoryItem) (m : Measurement)
    (s2 : EngineState) : (renderUpdateState el m s2).rendered = s2.rendered ++ [m] := by
  unfold renderUpdateState
  split <;> rfl

theorem Remove_eq (b : MeasurementsBuffer) (el : Option HistoryItem)
    (hne : b.items.isEmpty = false) :
    b.Remove el = { b with
      items := b.items.filter (fun item => item ≠ el),
      pos := b.pos - (b.items.take b.pos).count el } := by
  unfold MeasurementsBuffer.Remove
  rw [hne]
  simp

theorem pingIteration_blocked (env : Env) (s : EngineState) (h : NilBlocked s) :
    (∃ s', pingIteration env s = IterResult.sweepDone s' ∧
       s'.buf.items = s.buf.items ∧ s'.polled = s.polled ∧ s'.runErr = s.runErr) ∨
    (∃ e s', pingIteration env s = IterResult.fatal e s' ∧
       none ∈ s'.buf.items ∧ s'.runErr ≠ none ∧
       ∃ pid, s'.polled = s.polled ++ [pid] ∧ pid ∈ preNilIds s.buf.items) ∨
    (∃ s', pingIteration env s = IterResult.continued s' ∧ NilBlocked s' ∧
       (∃ pid, s'.polled = s.polled ++ [pid] ∧ pid ∈ preNilIds s.buf.items) ∧
       (∀ id ∈ preNilIds s'.buf.items, id ∈ preNilIds s.buf.items)) := by
  obtain ⟨hnil, hvis, hpos, herr⟩ := h
  rcases hN : s.buf.Next with ⟨elOpt, b1⟩
  cases elOpt with
  | none =>
    left
    refine ⟨{ s with buf := b1 }, ?_, ?_, rfl, rfl⟩
    · unfold pingIteration
      rw [hN]
    · have : b1 = (s.buf.Next).2 := by rw [hN]
      rw [this, Next_items]
  | some el =>
    obtain ⟨hlt, hget, hb1⟩ := Next_some_facts s.buf el b1 hN
    have hpid : el.id ∈ preNilIds s.buf.items :=
      id_mem_preNilIds s.buf.items s.buf.pos el hlt hget hvis
    rcases hPoll : env.poll s.pollCalls el.id with e | m
    · -- poll error: fatal
      right; left
      refine ⟨e, recordPoll el.id { s with buf := b1 }, ?_, ?_, herr, el.id, rfl, hpid⟩
      · unfold pingIteration
        rw [hN]
        dsimp only
        rw [hPoll]
      · show none ∈ b1.items
        rw [hb1]
        exact hnil
    · -- poll ok
      have hs2items : (pollUpdateState el m { s with buf := b1 }).buf.items =
          s.buf.items.map (Option.map (updStatus el.addr m.status)) := by
        rw [hb1]
        rfl
      have hs2pos : (pollUpdateState el m { s with buf := b1 }).buf.pos =
          s.buf.pos + 1 := by
        rw [hb1]
        rfl
      have hs2nil : none ∈ (pollUpdateState el m { s with buf := b1 }).buf.items := by
        rw [hs2items, mem_map_none]
        exact hnil
      have hs2vis : none ∉ (pollUpdateState el m { s with buf := b1 }).buf.items.take
          (pollUpdateState el m { s with buf := b1 }).buf.pos := by
        rw [hs2items, hs2pos, ← List.map_take]
        rw [mem_map_none]
        exact no_none_take_succ s.buf.items s.buf.pos el hvis hlt hget
      have hs2len : (pollUpdateState el m { s with buf := b1 }).buf.pos ≤
          (pollUpdateState el m { s with buf := b1 }).buf.items.length := by
        rw [hs2items, hs2pos, List.length_map]
        omega
      have hs2pre : preNilIds (pollUpdateState el m { s with buf := b1 }).buf.items =
          preNilIds s.buf.items := by
        rw [hs2items]
        exact preNilIds_map _ (updStatus_id el.addr m.status) s.buf.items
      by_cases hres : m.results.isEmpty = true
      · -- skip: continued with status write only
        right; right
        refine ⟨pollUpdateState el m { s with buf := b1 }, ?_, ?_, ⟨el.id, by rfl, hpid⟩, ?_⟩
        · unfold pingIteration
          rw [hN]
          dsimp only
          rw [hPoll]
          dsimp only
          rw [if_pos hres]
        · exact ⟨hs2nil, hs2vis, hs2len, herr⟩
        · intro id hid
          rw [hs2pre] at hid
          exact hid
      · rcases hR : env.render s.renderCalls m with _ | e'
        rotate_left
        ·
          -- render error: fatal
          right; left
          refine ⟨e', recordRender m (pollUpdateState el m { s with buf := b1 }),
            ?_, hs2nil, herr, el.id, rfl, hpid⟩
          unfold pingIteration
          rw [hN]
          dsimp only
          rw [hPoll]
          dsimp only
          rw [if_neg hres]
          have hRc : env.render
              (pollUpdateState el m { s with buf := b1 }).renderCalls m = some e' := hR
          rw [hRc]
        · -- render ok: continued (runErr already set, so no append branch)
          have hs4runErr : (renderUpdateState el m
              (pollUpdateState el m { s with buf := b1 })).runErr = s.runErr :=
            renderUpdateState_runErr el m _
          right; right
          refine ⟨renderUpdateState el m (pollUpdateState el m { s with buf := b1 }),
            ?_, ?_, ?_, ?_⟩
          · unfold pingIteration
            rw [hN]
            dsimp only
            rw [hPoll]
            dsimp only
            rw [if_neg hres]
            have hRc : env.render
                (pollUpdateState el m { s with buf := b1 }).renderCalls m = none := hR
            rw [hRc]
            dsimp only
            have : (renderUpdateState el m
                (pollUpdateState el m { s with buf := b1 })).runErr = s.runErr :=
              hs4runErr
            rcases hcase : s.runErr with _ | e0
            · exact absurd hcase herr
            · rw [hcase] at this
              rw [this]
          · -- NilBlocked s4
            have hbne : ((recordRender m (pollUpdateState el m
                { s with buf := b1 })).buf.items).isEmpty = false := by
              rw [List.isEmpty_eq_false]
              intro hE
              have hcontra : none ∈ (recordRender m (pollUpdateState el m
                  { s with buf := b1 })).buf.items := hs2nil
              rw [hE] at hcontra
              simp at hcontra
            unfold renderUpdateState
            by_cases hst : m.status ≠ MeasurementStatus.inProgress
            · rw [if_pos hst, Remove_eq _ _ hbne]
              refine ⟨?_, ?_, ?_, herr⟩
              · exact none_mem_filter_ne _ _ hs2nil
              · exact no_none_take_after_filter _ _ _ hs2len hs2vis
              · have := Remove_pos_le ((recordRender m (pollUpdateState el m
                    { s with buf := b1 })).buf)
                  (some { el with status := m.status }) hs2len
                rw [Remove_eq _ _ hbne] at this
                exact this
            · rw [if_neg hst]
              refine ⟨?_, ?_, ?_, herr⟩
              · show none ∈ ((pollUpdateState el m { s with buf := b1 }).buf.items.map
                  (Option.map (updFlag el.addr (IsPartiallyFinished m))))
                rw [mem_map_none]
                exact hs2nil
              · show none ∉ List.take (pollUpdateState el m
                    { s with buf := b1 }).buf.pos
                  ((pollUpdateState el m { s with buf := b1 }).buf.items.map
                    (Option.map (updFlag el.addr (IsPartiallyFinished m))))
                rw [← List.map_take, mem_map_none]
                exact hs2vis
              · show (pollUpdateState el m { s with buf := b1 }).buf.pos ≤
                  ((pollUpdateState el m { s with buf := b1 }).buf.items.map
                    (Option.map (updFlag el.addr (IsPartiallyFinished m)))).length
                rw [List.length_map]
                exact hs2len
          · refine ⟨el.id, ?_, hpid⟩
            rw [renderUpdateState_polled]
            exact rfl
          · intro id hid
            have hbne : ((recordRender m (pollUpdateState el m
                { s with buf := b1 })).buf.items).isEmpty = false := by
              rw [List.isEmpty_eq_false]
              intro hE
              have hcontra : none ∈ (recordRender m (pollUpdateState el m
                  { s with buf := b1 })).buf.items := hs2nil
              rw [hE] at hcontra
              simp at hcontra
            unfold renderUpdateState at hid
            by_cases hst : m.status ≠ MeasurementStatus.inProgress
            · rw [if_pos hst, Remove_eq _ _ hbne] at hid
              have step1 := preNilIds_filter
                ((pollUpdateState el m { s with buf := b1 }).buf.items)
                { el with status := m.status } id hid
              rw [hs2pre] at step1
              exact step1
            · rw [if_neg hst] at hid
              have step1 : id ∈ preNilIds ((pollUpdateState el m
                  { s with buf := b1 }).buf.items.map
                    (Option.map (updFlag el.addr (IsPartiallyFinished m)))) := hid
              rw [preNilIds_map _ (updFlag_id el.addr (IsPartiallyFinished m)) _,
                hs2pre] at step1
              exact step1

theorem pingSweep_blocked (fuel : Nat) (env : Env) (s : EngineState)
    (h : NilBlocked s) :
    none ∈ (pingSweep fuel env s).state.buf.items ∧
    (pingSweep fuel env s).state.runErr ≠ none ∧
    ∃ ext, (pingSweep fuel env s).state.polled = s.polled ++ ext ∧
      ∀ id ∈ ext, id ∈ preNilIds s.buf.items := by
  induction fuel generalizing s with
  | zero =>
    refine ⟨h.1, h.2.2.2, [], ?_, by simp⟩
    show s.polled = s.polled ++ []
    simp
  | succ fuel ih =>
    rcases pingIteration_blocked env s h with
      ⟨s', hEq, hitems, hpolled, hrun⟩ |
      ⟨e, s', hEq, hnil', hrun', pid, hpolled, hpid⟩ |
      ⟨s', hEq, hblk', ⟨pid, hpolled, hpid⟩, hsub⟩
    · have hunf : pingSweep (fuel + 1) env s =
          match pingIteration env s with
          | IterResult.sweepDone s0 => SweepResult.done s0
          | IterResult.fatal e0 s0 => SweepResult.fatal e0 s0
          | IterResult.panicked s0 => SweepResult.panicked s0
          | IterResult.continued s0 => pingSweep fuel env s0 := rfl
      have hstep : pingSweep (fuel + 1) env s = SweepResult.done s' := by
        rw [hunf, hEq]
      rw [hstep]
      refine ⟨?_, ?_, [], by simp [SweepResult.state, hpolled], by simp⟩
      · show none ∈ s'.buf.items
        rw [hitems]
        exact h.1
      · show s'.runErr ≠ none
        rw [hrun]
        exact h.2.2.2
    · have hunf : pingSweep (fuel + 1) env s =
          match pingIteration env s with
          | IterResult.sweepDone s0 => SweepResult.done s0
          | IterResult.fatal e0 s0 => SweepResult.fatal e0 s0
          | IterResult.panicked s0 => SweepResult.panicked s0
          | IterResult.continued s0 => pingSweep fuel env s0 := rfl
      have hstep : pingSweep (fuel + 1) env s = SweepResult.fatal e s' := by
        rw [hunf, hEq]
      rw [hstep]
      exact ⟨hnil', hrun', [pid], by simp [SweepResult.state, hpolled],
        by simpa using hpid⟩
    · have hunf : pingSweep (fuel + 1) env s =
          match pingIteration env s with
          | IterResult.sweepDone s0 => SweepResult.done s0
          | IterResult.fatal e0 s0 => SweepResult.fatal e0 s0
          | IterResult.panicked s0 => SweepResult.panicked s0
          | IterResult.continued s0 => pingSweep fuel env s0 := rfl
      have hstep : pingSweep (fuel + 1) env s = pingSweep fuel env s' := by
        rw [hunf, hEq]
      rw [hstep]
      obtain ⟨c1, c2, ext', hp', hids'⟩ := ih s' hblk'
      refine ⟨c1, c2, pid :: ext', ?_, ?_⟩
      · rw [hp', hpolled, List.append_assoc]
        rfl
      · intro id hid
        rcases List.mem_cons.mp hid with h1 | h2
        · rw [h1]
          exact hpid
        · exact hsub id (hids' id h2)

theorem pingIteration_create_error (env : Env) (s : EngineState)
    (el : HistoryItem) (b1 : MeasurementsBuffer) (m : Measurement)
    (lastIt : HistoryItem) (e : String)
    (hnext : s.buf.Next = (some el, b1))
    (hpoll : env.poll s.pollCalls el.id = Except.ok m)
    (hres : m.results.isEmpty = false)
    (hrender : env.render s.renderCalls m = none)
    (hrun : s.runErr = none)
    (hcan : (renderUpdateState el m
      (pollUpdateState el m { s with buf := b1 })).buf.CanAppend = some true)
    (hlast : (renderUpdateState el m
      (pollUpdateState el m { s with buf := b1 })).history.head? = some lastIt)
    (hcreate : env.create s.createCalls lastIt.id = Except.error e) :
    pingIteration env s = IterResult.continued
      { renderUpdateState el m (pollUpdateState el m { s with buf := b1 }) with
        createCalls := (renderUpdateState el m
          (pollUpdateState el m { s with buf := b1 })).createCalls + 1,
        runErr := some e,
        buf := (renderUpdateState el m
          (pollUpdateState el m { s with buf := b1 })).buf.Append none } := by
  unfold pingIteration
  rw [hnext]
  dsimp only
  rw [hpoll]
  dsimp only
  rw [if_neg (by rw [hres]; exact Bool.false_ne_true)]
  have hR : env.render
      (pollUpdateState el m { s with buf := b1 }).renderCalls m = none := hrender
  rw [hR]
  dsimp only
  have h4 : (renderUpdateState el m
      (pollUpdateState el m { s with buf := b1 })).runErr = none := by
    rw [renderUpdateState_runErr]
    exact hrun
  rw [h4]
  dsimp only
  rw [hcan]
  dsimp only
  rw [hlast]
  dsimp only
  unfold createMeasurement
  have hC : env.create (renderUpdateState el m
      (pollUpdateState el m { s with buf := b1 })).createCalls lastIt.id =
      Except.error e := by
    rw [renderUpdateState_createCalls]
    exact hcreate
  rw [hC]

/-- C9: (i) when a mid-sweep measurement creation fails, the engine still
appends the resulting nil handle to the window, recording the error in the
deferred run error; (ii) `next()` returns a stored nil handle exactly as it
signals exhaustion, so the sweep loop (`for el != nil`) stops when it
reaches the nil entry; (iii) consequently, in every subsequent sweep the
nil handle never leaves the window, the window never drains (the
after-sweep decision is always to sleep and continue, never to return),
and every id polled during the sweep belongs to an item sitting strictly
before the first nil — items appended after it are never polled. -/
theorem C9_nil_sentinel_blocks :
    (∀ (env : Env) (s : EngineState) (el : HistoryItem) (b1 : MeasurementsBuffer)
        (m : Measurement) (lastIt : HistoryItem) (e : String),
      s.buf.Next = (some el, b1) →
      env.poll s.pollCalls el.id = Except.ok m →
      m.results.isEmpty = false →
      env.render s.renderCalls m = none →
      s.runErr = none →
      (renderUpdateState el m
        (pollUpdateState el m { s with buf := b1 })).buf.CanAppend = some true →
      (renderUpdateState el m
        (pollUpdateState el m { s with buf := b1 })).history.head? = some lastIt →
      env.create s.createCalls lastIt.id = Except.error e →
      pingIteration env s = IterResult.continued
        { renderUpdateState el m (pollUpdateState el m { s with buf := b1 }) with
          createCalls := (renderUpdateState el m
            (pollUpdateState el m { s with buf := b1 })).createCalls + 1,
          runErr := some e,
          buf := (renderUpdateState el m
            (pollUpdateState el m { s with buf := b1 })).buf.Append none }) ∧
    (∀ b : MeasurementsBuffer, b.pos < b.items.length →
      b.items.getD b.pos none = none →
      b.Next = (none, { b with pos := b.pos + 1 })) ∧
    (∀ (fuel : Nat) (env : Env) (s : EngineState),
      none ∈ s.buf.items → none ∉ s.buf.items.take s.buf.pos →
      s.buf.pos ≤ s.buf.items.length → s.runErr ≠ none →
      none ∈ (pingSweep fuel env s).state.buf.items ∧
      0 < (pingSweep fuel env s).state.buf.Len ∧
      (∀ s', pingSweep fuel env s = SweepResult.done s' →
        pingAfterSweep s' = AfterSweep.sleepAndContinue) ∧
      (∃ ext, (pingSweep fuel env s).state.polled = s.polled ++ ext ∧
        ∀ id ∈ ext, id ∈ preNilIds s.buf.items)) := by
  refine ⟨?_, ?_, ?_⟩
  · intro env s el b1 m lastIt e hnext hpoll hres hrender hrun hcan hlast hcreate
    exact pingIteration_create_error env s el b1 m lastIt e
      hnext hpoll hres hrender hrun hcan hlast hcreate
  · intro b h1 h2
    unfold MeasurementsBuffer.Next
    rw [if_neg (by omega), h2]
  · intro fuel env s hnil hvis hpos herr
    obtain ⟨c1, c2, ext, hp, hids⟩ :=
      pingSweep_blocked fuel env s ⟨hnil, hvis, hpos, herr⟩
    have hlen : 0 < (pingSweep fuel env s).state.buf.Len :=
      List.length_pos.mpr (List.ne_nil_of_mem c1)
    refine ⟨c1, hlen, ?_, ext, hp, hids⟩
    intro s' hdone
    have hmem : none ∈ s'.buf.items := by
      rw [hdone] at c1
      exact c1
    have hlen' : 0 < s'.buf.Len := List.length_pos.mpr (List.ne_nil_of_mem hmem)
    unfold pingAfterSweep
    rw [if_pos hlen']

/-- C9 witness: a window `[itemA, nil]` with the run error recorded: after
a three-iteration sweep the nil is still held, the window is non-empty,
any completed sweep decides to sleep and continue, and only `itemA`'s id
was polled. -/
theorem C9_nil_sentinel_blocks_witness :
    ((none : Option HistoryItem) ∈ stateNilInWindow.buf.items ∧
      (none : Option HistoryItem) ∉
        stateNilInWindow.buf.items.take stateNilInWindow.buf.pos ∧
      stateNilInWindow.buf.pos ≤ stateNilInWindow.buf.items.length ∧
      stateNilInWindow.runErr ≠ none) ∧
    (none ∈ (pingSweep 3 envCreateFails stateNilInWindow).state.buf.items ∧
      0 < (pingSweep 3 envCreateFails stateNilInWindow).state.buf.Len ∧
      (∀ s', pingSweep 3 envCreateFails stateNilInWindow = SweepResult.done s' →
        pingAfterSweep s' = AfterSweep.sleepAndContinue) ∧
      (∃ ext, (pingSweep 3 envCreateFails stateNilInWindow).state.polled =
          stateNilInWindow.polled ++ ext ∧
        ∀ id ∈ ext, id ∈ preNilIds stateNilInWindow.buf.items)) :=
  ⟨⟨by decide, by decide, by decide, by decide⟩,
   C9_nil_sentinel_blocks.2.2 3 envCreateFails stateNilInWindow
     (by decide) (by decide) (by decide) (by decide)⟩

/-- C1 (amended): in continuous mode an error from the remote poll call or
from the incremental render call aborts the run immediately, interrupting
the in-flight sweep; only an error from a mid-sweep measurement creation is
recorded in the deferred run error without interrupting the sweep (the nil
handle is appended and the already-rendered output of the current item is
kept). -/
theorem C1_error_policy (env : Env) (s : EngineState) (el : HistoryItem)
    (b1 : MeasurementsBuffer) (hnext : s.buf.Next = (some el, b1)) :
    (∀ e, env.poll s.pollCalls el.id = Except.error e →
      pingIteration env s =
        IterResult.fatal e (recordPoll el.id { s with buf := b1 })) ∧
    (∀ m e, env.poll s.pollCalls el.id = Except.ok m →
      m.results.isEmpty = false →
      env.render s.renderCalls m = some e →
      pingIteration env s =
        IterResult.fatal e
          (recordRender m (pollUpdateState el m { s with buf := b1 }))) ∧
    (∀ m lastIt e, env.poll s.pollCalls el.id = Except.ok m →
      m.results.isEmpty = false →
      env.render s.renderCalls m = none →
      s.runErr = none →
      (renderUpdateState el m
        (pollUpdateState el m { s with buf := b1 })).buf.CanAppend = some true →
      (renderUpdateState el m
        (pollUpdateState el m { s with buf := b1 })).history.head? = some lastIt →
      env.create s.createCalls lastIt.id = Except.error e →
      ∃ s', pingIteration env s = IterResult.continued s' ∧
        s'.runErr = some e ∧
        s'.buf.items = (renderUpdateState el m
          (pollUpdateState el m { s with buf := b1 })).buf.items ++ [none] ∧
        s'.rendered = s.rendered ++ [m]) := by
  refine ⟨?_, ?_, ?_⟩
  · intro e hpoll
    unfold pingIteration
    rw [hnext]
    dsimp only
    rw [hpoll]
  · intro m e hpoll hres hrender
    unfold pingIteration
    rw [hnext]
    dsimp only
    rw [hpoll]
    dsimp only
    rw [if_neg (by rw [hres]; exact Bool.false_ne_true)]
    have hR : env.render
        (pollUpdateState el m { s with buf := b1 }).renderCalls m = some e := hrender
    rw [hR]
  · intro m lastIt e hpoll hres hrender hrun hcan hlast hcreate
    refine ⟨_, pingIteration_create_error env s el b1 m lastIt e
      hnext hpoll hres hrender hrun hcan hlast hcreate, rfl, rfl, ?_⟩
    show (renderUpdateState el m
      (pollUpdateState el m { s with buf := b1 })).rendered = s.rendered ++ [m]
    rw [renderUpdateState_rendered]
    exact rfl

/-- C1 witness: with the window `[itemA, itemB]`, a failing poll of `itemA`
makes the iteration return the error immediately, with only the poll of
`itemA` traced. -/
theorem C1_error_policy_witness :
    envPollError.poll stateTwoItems.pollCalls itemA.id = Except.error "boom" ∧
    pingIteration envPollError stateTwoItems =
      IterResult.fatal "boom"
        (recordPoll itemA.id
          { stateTwoItems with
            buf := { capacity := 2, items := [some itemA, some itemB], pos := 1 } }) :=
  ⟨rfl,
   (C1_error_policy envPollError stateTwoItems itemA
      { capacity := 2, items := [some itemA, some itemB], pos := 1 }
      (by decide)).1 "boom" rfl⟩
